import Mathlib

/-!
Verification development for an agentic honeypot service (FastAPI + a fixed
four-stage message pipeline).  The definitions below are a shallow embedding of
`src/agent_graph.py`, `src/main.py` and the call contract of `src/hf_client.py`:

* the five regular expressions (`RE_URL`, `RE_SHORT`, `RE_UPI`, `RE_PHONE`,
  `RE_BANK_AC`) are hand-compiled into deterministic matchers over `List Char`,
  together with a left-to-right non-overlapping scanner reproducing Python's
  `re.findall` / `re.search` semantics for these concrete patterns
  (word boundaries, greedy repetition with the backtracking these patterns
  admit, lookaround for `RE_UPI`);
* Python `float` arithmetic in `_score_scam` is modelled with exact rational
  arithmetic, carried out in integer hundredths (every addend is a multiple
  of 0.01) and certified against the decimal constants 0.18, 0.05, 0.25,
  0.10, 0.35 over `ℚ`;
* Python `set` objects are modelled as `Finset`s; `RE_UPI.findall` returns
  2-tuples (the pattern has two capture groups), so `upiIds` is a
  `Finset (String × String)`;
* the external generation call (`hf_chat`) and the external report delivery
  are oracles: `Option String` (`none` = the awaited call raised) and a
  callback-result datatype;
* `main.handle_message` (post-authentication) is a pure step function on a
  session value; a separate small heap model captures the reference semantics
  of the Python `set` objects shared between the session dict and the
  per-message pipeline state.

ASCII note: Python's `str.lower`, `\w`, `\s`, `\d` are Unicode-aware; the
embedding uses their ASCII restrictions, which agree with Python on all the
ASCII vocabulary and inputs involved here.
-/

/-- ASCII restriction of Python's `\w` (regex word character). -/
def isWordChar (c : Char) : Bool := c.isAlphanum || c = '_'

/-- ASCII restriction of Python's `\s` (regex whitespace / `str.strip`). -/
def isPySpace (c : Char) : Bool :=
  c = ' ' || c = '\t' || c = '\n' || c = '\r' || c = '\x0B' || c = '\x0C'

/-- Word-character test for the character on one side of a position; out of
the string counts as a non-word character (Python word-boundary convention). -/
def isWordOpt : Option Char → Bool
  | none => false
  | some c => isWordChar c

/-- Drop the longest suffix whose characters satisfy `p`. -/
def dropTrailing (p : Char → Bool) (l : List Char) : List Char :=
  (l.reverse.dropWhile p).reverse

/-- Python `str.strip()` (ASCII whitespace). -/
def pyStrip (l : List Char) : List Char :=
  dropTrailing isPySpace (l.dropWhile isPySpace)

/-- Python `str.rstrip(").,;")`, applied to link matches in `node_extract`. -/
def rstripPunct (l : List Char) : List Char :=
  dropTrailing (fun c => c = ')' || c = '.' || c = ',' || c = ';') l

/-- `listStartsWith l pat` = `pat` is an initial segment of `l`. -/
def listStartsWith : List Char → List Char → Bool
  | _, [] => true
  | [], _ :: _ => false
  | c :: cs, p :: ps => c = p && listStartsWith cs ps

/-- Case-insensitive `listStartsWith` (for the `re.IGNORECASE` patterns). -/
def startsWithCI : List Char → List Char → Bool
  | _, [] => true
  | [], _ :: _ => false
  | c :: cs, p :: ps => (c.toLower = p.toLower) && startsWithCI cs ps

/-- Python substring test `pat in hay` (`"" in hay` is true). -/
def containsSub (hay pat : List Char) : Bool :=
  match hay with
  | [] => pat.isEmpty
  | _ :: t => listStartsWith hay pat || containsSub t pat

/-- A compiled regex: given the previous character (`none` at start of string)
and the current suffix, return the artifact of a match anchored here together
with `n` where `n + 1` characters were consumed, or `none` if no match starts
here.  Matchers only ever report `n + 1 ≤` length of the suffix. -/
abbrev Matcher (α : Type) := Option Char → List Char → Option (α × Nat)

/-- Fuelled worker for the `re.findall`-style scan (structural recursion on
the fuel so that it computes by kernel reduction; every step shortens the
text, so any fuel of at least the text's length gives the scan itself). -/
def scanF {α : Type} (m : Matcher α) : Nat → Option Char → List Char → List α
  | 0, _, _ => []
  | _ + 1, _, [] => []
  | f + 1, prev, c :: rest =>
    match m prev (c :: rest) with
    | some (a, n) => a :: scanF m f (((c :: rest).drop n).head?) (rest.drop n)
    | none => scanF m f (some c) rest

/-- Python `re.findall`-style scan: try a match at each position from left to
right; on a match, emit its artifact and resume immediately after it
(non-overlapping matches), otherwise advance one character. -/
def scanA {α : Type} (m : Matcher α) (prev : Option Char) (t : List Char) :
    List α :=
  scanF m t.length prev t

/-- The scan does not depend on the fuel once the fuel covers the text. -/
theorem scanF_irrel {α : Type} (m : Matcher α) :
    ∀ (f f' : Nat) (prev : Option Char) (t : List Char),
      t.length ≤ f → t.length ≤ f' → scanF m f prev t = scanF m f' prev t := by
  intro f
  induction f with
  | zero =>
    intro f' prev t hf _
    have : t = [] := List.eq_nil_of_length_eq_zero (Nat.le_zero.mp hf)
    subst this
    cases f' <;> rfl
  | succ f ih =>
    intro f' prev t hf hf'
    cases t with
    | nil => cases f' <;> rfl
    | cons c rest =>
      cases f' with
      | zero => exact absurd hf' (by simp)
      | succ f' =>
        simp only [scanF]
        cases hm : m prev (c :: rest) with
        | none =>
          exact ih f' (some c) rest (by simpa using hf) (by simpa using hf')
        | some an =>
          obtain ⟨a, n⟩ := an
          have hlen : (rest.drop n).length ≤ f := by
            simp only [List.length_drop]
            have : rest.length ≤ f := by simpa using hf
            omega
          have hlen' : (rest.drop n).length ≤ f' := by
            simp only [List.length_drop]
            have : rest.length ≤ f' := by simpa using hf'
            omega
          dsimp only
          exact congrArg (a :: ·)
            (ih f' (((c :: rest).drop n).head?) (rest.drop n) hlen hlen')

/-- The natural unfolding equation of the scan on a non-empty text. -/
theorem scanA_cons {α : Type} (m : Matcher α) (prev : Option Char) (c : Char)
    (rest : List Char) :
    scanA m prev (c :: rest)
      = (match m prev (c :: rest) with
         | some (a, n) => a :: scanA m (((c :: rest).drop n).head?) (rest.drop n)
         | none => scanA m (some c) rest) := by
  show scanF m (c :: rest).length prev (c :: rest) = _
  simp only [List.length_cons, scanF]
  cases hm : m prev (c :: rest) with
  | none =>
    dsimp only
    unfold scanA
    rfl
  | some an =>
    obtain ⟨a, n⟩ := an
    dsimp only
    unfold scanA
    exact congrArg (a :: ·)
      (scanF_irrel m rest.length (rest.drop n).length (((c :: rest).drop n).head?)
        (rest.drop n) (by simp) (le_refl _))

/-- Python `re.search` as a Boolean (at least one match anywhere). -/
def reSearch {α : Type} (m : Matcher α) (t : List Char) : Bool :=
  !(scanA m none t).isEmpty

/-- `RE_URL = (https?://[^\s]+)` with `re.IGNORECASE` (one capture group equal
to the whole match, so `findall` yields the matched strings). -/
def matchURL : Matcher String := fun _ s =>
  let base : Nat :=
    if startsWithCI s "https://".data then 8
    else if startsWithCI s "http://".data then 7 else 0
  if base = 0 then none
  else
    let body := (s.drop base).takeWhile (fun c => !isPySpace c)
    if body.length = 0 then none
    else some (String.mk (s.take (base + body.length)), base + body.length - 1)

/-- The shortened-link domains of `RE_SHORT`, in source order. -/
def SHORT_DOMAINS : List String :=
  ["bit.ly", "tinyurl.com", "t.co", "goo.gl", "cutt.ly", "rb.gy"]

/-- Character class `[A-Za-z0-9_-]` of `RE_SHORT`'s path component. -/
def shortPathChar (c : Char) : Bool := c.isAlphanum || c = '_' || c = '-'

/-- `RE_SHORT = \b(?:bit\.ly|tinyurl\.com|t\.co|goo\.gl|cutt\.ly|rb\.gy)/[A-Za-z0-9_-]+\b`
with `re.IGNORECASE`.  All domains start with a letter, so the leading `\b`
requires a non-word character before the match; the trailing `\b` makes greedy
matching backtrack over trailing hyphens (the only non-word characters in the
path class). -/
def matchShort : Matcher String := fun prev s =>
  if isWordOpt prev then none
  else
    match (SHORT_DOMAINS.map (fun d => d.data ++ ['/'])).findSome?
        (fun p => if startsWithCI s p then some p.length else none) with
    | none => none
    | some dl =>
      let run := (s.drop dl).takeWhile shortPathChar
      let kept := dropTrailing (fun c => c = '-') run
      if kept.length = 0 then none
      else some (String.mk (s.take (dl + kept.length)), dl + kept.length - 1)

/-- Character class `[a-zA-Z0-9._-]` of `RE_UPI`'s local part; it coincides
with the set `[\w.-]` excluded by the pattern's lookaround. -/
def upiLocalChar (c : Char) : Bool := c.isAlphanum || c = '.' || c = '_' || c = '-'

/-- `RE_UPI = (?<![\w.-])([a-zA-Z0-9._-]{2,})@([a-zA-Z0-9]{2,})(?![\w.-])`.
Two capture groups, so `findall` yields pairs (local part, provider part).
`@` is not in the local class, so the greedy local part is the maximal class
run before an `@`; the negative lookahead admits no backtracked alternative,
so the provider part is the maximal alphanumeric run after the `@`. -/
def matchUPI : Matcher (String × String) := fun prev s =>
  let lbOK : Bool :=
    match prev with
    | none => true
    | some p => !(isWordChar p || p = '.' || p = '-')
  if !lbOK then none
  else
    let g1 := s.takeWhile upiLocalChar
    if g1.length < 2 then none
    else
      match s.drop g1.length with
      | '@' :: r2 =>
        let g2 := r2.takeWhile (fun c => c.isAlphanum)
        if g2.length < 2 then none
        else
          let laOK : Bool :=
            match (r2.drop g2.length).head? with
            | none => true
            | some c => !(isWordChar c || c = '.' || c = '-')
          if laOK then
            some ((String.mk g1, String.mk g2), g1.length + 1 + g2.length - 1)
          else none
      | _ => none

/-- The ten-digit core `[6-9]\d{9}\b` of `RE_PHONE`: the suffix starts with a
digit 6–9, its first ten characters are digits, and the character after them
(if any) is not a word character. -/
def phoneCore (s : List Char) : Bool :=
  decide (10 ≤ s.length) &&
  (match s.head? with
   | some c => decide ('6' ≤ c) && decide (c ≤ '9')
   | none => false) &&
  (s.take 10).all (fun c => c.isDigit) &&
  !(isWordOpt ((s.drop 10).head?))

/-- `RE_PHONE = \b(?:\+91[-\s]?)?[6-9]\d{9}\b` (no capture groups, so
`findall` yields whole matches).  A match starting at `+` needs the preceding
character to be a word character (`+` itself is non-word); a bare match
starting at a digit needs a non-word (or absent) preceding character.  The
greedy optional separator backtracks: with a separator present but no valid
ten-digit run after it, the separator position itself cannot start the digit
core, so the whole prefixed attempt fails. -/
def matchPhone : Matcher String := fun prev s =>
  match s with
  | '+' :: '9' :: '1' :: r =>
    if isWordOpt prev then
      match r with
      | c :: r' =>
        if (c = '-' || isPySpace c) && phoneCore r' then
          some (String.mk (s.take 14), 13)
        else if phoneCore r then some (String.mk (s.take 13), 12)
        else none
      | [] => none
    else none
  | _ =>
    if !(isWordOpt prev) && phoneCore s then some (String.mk (s.take 10), 9)
    else none

/-- `RE_BANK_AC = \b\d{9,18}\b`.  The greedy run must end at a word boundary;
ending inside a digit run is impossible, so a maximal digit run of length 9–18
bounded by non-word characters is matched whole, and any other run yields no
match at this position. -/
def matchBank : Matcher String := fun prev s =>
  let run := s.takeWhile (fun c => c.isDigit)
  if isWordOpt prev = false ∧ 9 ≤ run.length ∧ run.length ≤ 18 ∧
      isWordOpt ((s.drop run.length).head?) = false then
    some (String.mk run, run.length - 1)
  else none

/-- `SUSPICIOUS_KEYWORDS` from `agent_graph.py`. -/
def SUSPICIOUS_KEYWORDS : List String :=
  ["urgent", "verify", "account blocked", "blocked today", "suspended",
   "freeze", "kyc", "otp", "pin", "cvv", "click", "link", "refund",
   "cashback", "upi", "bank account", "share details", "immediately"]

/-- The twelve "strong" phrases local to `_score_scam`. -/
def HIGH_PHRASES : List String :=
  ["otp", "cvv", "pin", "verify immediately", "blocked today",
   "account will be blocked", "share your upi", "click the link",
   "refund", "cashback", "kyc update", "suspended"]

/-- `_score_scam` from `agent_graph.py` in exact hundredths: every addend of
the heuristic is a multiple of 0.01, so the whole computation is carried out
over `Nat` at a fixed denominator of 100 (+18 per strong phrase in the
lower-cased text, +5 per suspicious keyword, +25 for a URL or shortened
link, +25 for a UPI handle, +10 for a phone number, capped at 100 = 1.0).
`c6_confidence_additive` certifies this against the specification's decimal
constants 0.18/0.05/0.25/0.10 over `ℚ`. -/
def scoreCenti (text : String) : Nat :=
  let t := text.data.map Char.toLower
  let score : Nat := 0
  let score :=
    HIGH_PHRASES.foldl (fun acc p => if containsSub t p.data then acc + 18 else acc) score
  let score :=
    SUSPICIOUS_KEYWORDS.foldl (fun acc kw => if containsSub t kw.data then acc + 5 else acc) score
  let score :=
    if reSearch matchURL text.data || reSearch matchShort text.data then score + 25 else score
  let score := if reSearch matchUPI text.data then score + 25 else score
  let score := if reSearch matchPhone text.data then score + 10 else score
  min score 100

/-- The confidence `_score_scam` returns, as a rational. -/
def scoreScam (text : String) : ℚ := mkRat (scoreCenti text) 100

/-- The detection threshold 0.35 of `node_detect`
(`SCAM_THRESHOLD_exact` certifies the representation). -/
def SCAM_THRESHOLD : ℚ := mkRat 35 100

/-- The embedded threshold is exactly the source's literal `0.35`. -/
theorem SCAM_THRESHOLD_exact : SCAM_THRESHOLD = (0.35 : ℚ) := by
  rw [SCAM_THRESHOLD, Rat.mkRat_eq_div]; norm_num

/-- The artifact categories one call of `node_extract` derives from a single
message text (before being unioned into the pipeline state's sets):
URL and shortened-link matches are stripped and right-stripped of `).,;`,
phone matches are stripped, bank-account matches are kept when at least nine
characters long (always true for `RE_BANK_AC` matches), and every suspicious
keyword occurring in the lower-cased text is recorded. -/
structure Extraction where
  bankAccounts : Finset String
  upiIds : Finset (String × String)
  phishingLinks : Finset String
  phoneNumbers : Finset String
  suspiciousKeywords : Finset String

/-- Trimming applied to `RE_URL`/`RE_SHORT` matches: `m.strip().rstrip(").,;")`. -/
def trimLink (m : String) : String := String.mk (rstripPunct (pyStrip m.data))

/-- The per-message extraction of `node_extract` as a pure function of the
message text. -/
def extractArtifacts (text : String) : Extraction where
  phishingLinks :=
    (((scanA matchURL none text.data).map trimLink) ++
      ((scanA matchShort none text.data).map trimLink)).toFinset
  upiIds := (scanA matchUPI none text.data).toFinset
  phoneNumbers :=
    ((scanA matchPhone none text.data).map (fun m => String.mk (pyStrip m.data))).toFinset
  bankAccounts :=
    ((scanA matchBank none text.data).filter (fun m => 9 ≤ m.length)).toFinset
  suspiciousKeywords :=
    (SUSPICIOUS_KEYWORDS.filter
      (fun kw => containsSub (text.data.map Char.toLower) kw.data)).toFinset

/-- The per-message `AgentState` dict flowing through the langgraph pipeline
(`detect → extract → decide → reply`).  All keys the nodes read are seeded by
`handle_message`, so they are plain fields here. -/
structure PState where
  incoming_text : String
  sender : String
  history : List (String × String)
  scamDetected : Bool
  confidence : ℚ
  stage : String
  bankAccounts : Finset String
  upiIds : Finset (String × String)
  phishingLinks : Finset String
  phoneNumbers : Finset String
  suspiciousKeywords : Finset String
  reply : String
  shouldFinalize : Bool

/-- `node_detect`: score the incoming text, detect at threshold 0.35. -/
def node_detect (st : PState) : PState :=
  let conf := scoreScam st.incoming_text
  { st with
    confidence := conf
    scamDetected := decide (SCAM_THRESHOLD ≤ conf)
    stage := if decide (SCAM_THRESHOLD ≤ conf) then "engage" else "observe" }

/-- `node_extract`: add this message's artifacts to the state's sets (the
`.add` loops amount to a union with the single-message extraction). -/
def node_extract (st : PState) : PState :=
  let E := extractArtifacts st.incoming_text
  { st with
    phishingLinks := st.phishingLinks ∪ E.phishingLinks
    upiIds := st.upiIds ∪ E.upiIds
    phoneNumbers := st.phoneNumbers ∪ E.phoneNumbers
    bankAccounts := st.bankAccounts ∪ E.bankAccounts
    suspiciousKeywords := st.suspiciousKeywords ∪ E.suspiciousKeywords }

/-- `_should_finalize`'s count of non-empty strong artifact categories
(links, UPI handles, phone numbers, bank accounts; keywords are not
consulted). -/
def strongCount (st : PState) : Nat :=
  (if 0 < st.phishingLinks.card then 1 else 0) +
  (if 0 < st.upiIds.card then 1 else 0) +
  (if 0 < st.phoneNumbers.card then 1 else 0) +
  (if 0 < st.bankAccounts.card then 1 else 0)

/-- `node_decide` with `T = FINALIZE_MIN_ARTIFACTS` (env-configurable,
default 3): finalize iff the message was detected as scam and at least `T`
strong categories are non-empty. -/
def node_decide (T : Nat) (st : PState) : PState :=
  { st with shouldFinalize := st.scamDetected && decide (T ≤ strongCount st) }

/-- Fixed reply of `node_reply_llm` when the message is not detected as scam
(generation is not invoked). -/
def NOT_SCAM_REPLY : String :=
  "Sorry—who is this and which bank/service is this about? I didn’t request anything."

/-- Fixed fallback reply of `node_reply_llm`'s `except` branch. -/
def FALLBACK_REPLY : String :=
  "I’m confused—can you resend the link and tell me the exact steps? My app isn’t opening properly."

/-- Post-processing of a successfully returned generation text:
`reply.strip().split("\n")[0].strip()` truncated to 500 characters. -/
def firstLineOf (r : String) : String :=
  String.mk ((pyStrip ((pyStrip r.data).takeWhile (fun c => c ≠ '\n'))).take 500)

/-- `node_reply_llm`.  The generation call is an oracle: `some r` means
`hf_chat` returned text `r`, `none` means the awaited call raised (timeout,
HTTP error status, malformed response body).  The persona/hint prompt built
from the state is input to the external service only and has no effect on the
modelled state. -/
def node_reply_llm (hf : Option String) (st : PState) : PState :=
  if !st.scamDetected then { st with reply := NOT_SCAM_REPLY }
  else
    match hf with
    | some r => { st with reply := firstLineOf r }
    | none => { st with reply := FALLBACK_REPLY }

/-- The compiled langgraph pipeline: `detect → extract → decide → reply`. -/
def runPipeline (T : Nat) (hf : Option String) (st : PState) : PState :=
  node_reply_llm hf (node_decide T (node_extract (node_detect st)))

/-- A session entry of `SESSIONS` in `main.py` (value semantics; the
reference semantics of the five shared `set` objects is modelled separately
below). -/
structure Session where
  createdAt : Nat
  updatedAt : Nat
  totalMessagesExchanged : Nat
  finalized : Bool
  agentNotes : String
  bankAccounts : Finset String
  upiIds : Finset (String × String)
  phishingLinks : Finset String
  phoneNumbers : Finset String
  suspiciousKeywords : Finset String

/-- The fresh session `get_session` creates for an unknown session id. -/
def freshSession (now : Nat) : Session where
  createdAt := now
  updatedAt := now
  totalMessagesExchanged := 0
  finalized := false
  agentNotes := ""
  bankAccounts := ∅
  upiIds := ∅
  phishingLinks := ∅
  phoneNumbers := ∅
  suspiciousKeywords := ∅

/-- One inbound `/message` event (after validation): sender, text, and the
normalized conversation history. -/
structure MsgIn where
  sender : String
  text : String
  history : List (String × String)

/-- Outcome of the awaited callback POST in `send_guvi_callback`: an HTTP
status, or a raised transport exception. -/
inductive CbResult
  | ok (status : Nat)
  | exn

/-- The one-shot finalize payload `send_guvi_callback` builds (the JSON
serialization emits each evidence category as a sorted list; the payload
data is the same). -/
structure Report where
  sessionId : String
  scamDetected : Bool
  totalMessagesExchanged : Nat
  bankAccounts : Finset String
  upiIds : Finset (String × String)
  phishingLinks : Finset String
  phoneNumbers : Finset String
  suspiciousKeywords : Finset String
  agentNotes : String

/-- The `/message` response body (evidence categories are serialized sorted;
`confidence` is `round(conf, 3)`, modelled with rational rounding). -/
structure Resp where
  status : String
  reply : String
  scamDetected : Bool
  bankAccounts : Finset String
  upiIds : Finset (String × String)
  phishingLinks : Finset String
  phoneNumbers : Finset String
  suspiciousKeywords : Finset String
  confidence : ℚ
  totalMessagesExchanged : Nat
  finalized : Bool

/-- `round(conf, 3)` (Python rounds half-to-even on floats; the difference
can only appear at exact half-thousandths and no claim depends on it). -/
def round3 (q : ℚ) : ℚ := (round (q * 1000) : ℤ) / 1000

/-- Fixed constant substituted by `handle_message` when the pipeline's reply
is missing or falsy (`state_out.get("reply") or ...`); the bytes are exactly
the source literal, which contains a mis-encoded em-dash. -/
def OKAY_REPLY : String := "Okayâ€”what should I do next?"

/-- The payload of `send_guvi_callback` for session `sid` in state `sess`
(`agentNotes` is non-empty on every finalize path, so the `or` default is
not taken). -/
def mkReport (sid : String) (sess : Session) : Report where
  sessionId := sid
  scamDetected := true
  totalMessagesExchanged := sess.totalMessagesExchanged
  bankAccounts := sess.bankAccounts
  upiIds := sess.upiIds
  phishingLinks := sess.phishingLinks
  phoneNumbers := sess.phoneNumbers
  suspiciousKeywords := sess.suspiciousKeywords
  agentNotes :=
    if sess.agentNotes = "" then
      "Scammer used urgency + verification tactics; extracted artifacts."
    else sess.agentNotes

/-- Note bookkeeping after the callback attempt: a status of 400 or more
appends a failure note inside `send_guvi_callback`; a raised transport
exception is caught in `handle_message` and appends its own note.  The
`finalized` flag is not touched on any of these paths. -/
def applyCb (cb : CbResult) (sess : Session) : Session :=
  match cb with
  | CbResult.ok status =>
    if 400 ≤ status then
      { sess with agentNotes :=
          sess.agentNotes ++ " " ++ "GUVI callback failed: " ++ toString status }
    else sess
  | CbResult.exn =>
    { sess with agentNotes := sess.agentNotes ++ " " ++ "GUVI callback exception." }

/-- The pipeline input `state_in` that `handle_message` seeds from the
session (evidence keys refer to the session's current sets; the scalar keys
the nodes read start absent, i.e. falsy). -/
def seedState (sess : Session) (msg : MsgIn) : PState where
  incoming_text := msg.text
  sender := msg.sender
  history := msg.history.drop (msg.history.length - 6)
  scamDetected := false
  confidence := 0
  stage := ""
  bankAccounts := sess.bankAccounts
  upiIds := sess.upiIds
  phishingLinks := sess.phishingLinks
  phoneNumbers := sess.phoneNumbers
  suspiciousKeywords := sess.suspiciousKeywords
  reply := ""
  shouldFinalize := false

/-- The response body assembled at the end of `handle_message`. -/
def mkResp (reply : String) (scam : Bool) (conf : ℚ) (sess : Session) : Resp where
  status := "success"
  reply := reply
  scamDetected := scam
  bankAccounts := sess.bankAccounts
  upiIds := sess.upiIds
  phishingLinks := sess.phishingLinks
  phoneNumbers := sess.phoneNumbers
  suspiciousKeywords := sess.suspiciousKeywords
  confidence := round3 conf
  totalMessagesExchanged := sess.totalMessagesExchanged
  finalized := sess.finalized

/-- `handle_message` (after the API-key check and under the session's lock):
bump counters, run the pipeline on the seeded state, persist the evidence
sets back, substitute the constant reply if the pipeline reply is falsy, and
on `scam ∧ ¬finalized ∧ shouldFinalize` latch `finalized`, set the notes and
attempt the one-shot callback. -/
def handleMessage (T : Nat) (sid : String) (sess : Session) (msg : MsgIn)
    (hf : Option String) (cb : CbResult) (now : Nat) :
    Session × Resp × Option Report :=
  let sess1 :=
    { sess with updatedAt := now,
                totalMessagesExchanged := sess.totalMessagesExchanged + 1 }
  let out := runPipeline T hf (seedState sess1 msg)
  let sess2 :=
    { sess1 with
      bankAccounts := out.bankAccounts
      upiIds := out.upiIds
      phishingLinks := out.phishingLinks
      phoneNumbers := out.phoneNumbers
      suspiciousKeywords := out.suspiciousKeywords }
  let scam := out.scamDetected
  let conf := out.confidence
  let reply := if out.reply = "" then OKAY_REPLY else out.reply
  let shouldFin := out.shouldFinalize
  if scam && !sess2.finalized && shouldFin then
    let sess3 :=
      { sess2 with
        finalized := true
        agentNotes := "Detected scam intent; extracted artifacts from conversation." }
    let rep := mkReport sid sess3
    let sess4 := applyCb cb sess3
    (sess4, mkResp reply scam conf sess4, some rep)
  else
    (sess2, mkResp reply scam conf sess2, none)

/-- One scheduled input for a session: the message together with the two
external outcomes and the wall-clock reading for this turn. -/
structure TurnIn where
  msg : MsgIn
  hf : Option String
  cb : CbResult
  now : Nat

/-- Sequential processing of a list of messages for one session (the
per-session lock serializes turns), collecting the reports sent. -/
def processTrace (T : Nat) (sid : String) (sess : Session) :
    List TurnIn → Session × List Report
  | [] => (sess, [])
  | turn :: rest =>
    let step := handleMessage T sid sess turn.msg turn.hf turn.cb turn.now
    let tail := processTrace T sid step.1 rest
    (tail.1, step.2.2.toList ++ tail.2)

/-! ### Reference semantics of the shared evidence sets

`handle_message` seeds `state_in` with the session dict's own `set` objects
(`"bankAccounts": sess["bankAccounts"]`, …), `node_extract` mutates them with
`.add`, and the merge-back re-binds the session keys to the pipeline state's
objects.  The small heap below makes those references explicit: a cell address
per `set` object, `strCell` for the four string sets and the keyword set,
`pairCell` for `upiIds` (whose elements are 2-tuples). -/

/-- Heap of Python `set` objects, addressed by allocation number. -/
structure EvHeap where
  strCell : Nat → Finset String
  pairCell : Nat → Finset (String × String)

/-- The five evidence references held by a session dict (or by a pipeline
`state` dict). -/
structure EvRefs where
  bankAccounts : Nat
  upiIds : Nat
  phishingLinks : Nat
  phoneNumbers : Nat
  suspiciousKeywords : Nat

/-- Overwrite one string-set cell. -/
def updStr (h : EvHeap) (a : Nat) (v : Finset String) : EvHeap :=
  { h with strCell := fun x => if x = a then v else h.strCell x }

/-- Overwrite one pair-set cell. -/
def updPair (h : EvHeap) (a : Nat) (v : Finset (String × String)) : EvHeap :=
  { h with pairCell := fun x => if x = a then v else h.pairCell x }

/-- Seeding `state_in` from the session: the dict literal stores the
session's references themselves, not copies of the sets. -/
def seedRefs (sess : EvRefs) : EvRefs where
  bankAccounts := sess.bankAccounts
  upiIds := sess.upiIds
  phishingLinks := sess.phishingLinks
  phoneNumbers := sess.phoneNumbers
  suspiciousKeywords := sess.suspiciousKeywords

/-- `node_extract` on the heap: the `.add` loops mutate the sets the
pipeline state refers to, in source order (links, UPI ids, phone numbers,
bank accounts, keywords); `setdefault` never allocates because every key is
seeded. -/
def node_extractH (text : String) (ps : EvRefs) (h : EvHeap) : EvHeap :=
  let E := extractArtifacts text
  let h1 := updStr h ps.phishingLinks (h.strCell ps.phishingLinks ∪ E.phishingLinks)
  let h2 := updPair h1 ps.upiIds (h1.pairCell ps.upiIds ∪ E.upiIds)
  let h3 := updStr h2 ps.phoneNumbers (h2.strCell ps.phoneNumbers ∪ E.phoneNumbers)
  let h4 := updStr h3 ps.bankAccounts (h3.strCell ps.bankAccounts ∪ E.bankAccounts)
  updStr h4 ps.suspiciousKeywords (h4.strCell ps.suspiciousKeywords ∪ E.suspiciousKeywords)

/-- The merge-back `sess["X"] = state_out.get("X", sess["X"])`: every key is
present in `state_out`, so the session keys are re-bound to the pipeline
state's references. -/
def mergeBackH (ps : EvRefs) : EvRefs where
  bankAccounts := ps.bankAccounts
  upiIds := ps.upiIds
  phishingLinks := ps.phishingLinks
  phoneNumbers := ps.phoneNumbers
  suspiciousKeywords := ps.suspiciousKeywords

/-- The evidence-relevant part of one `handle_message` turn on the heap:
seed the pipeline references from the session, run the extract stage, then
merge back.  Returns (session references after merge-back, pipeline
references, heap after the extract stage). -/
def handleEvidenceH (text : String) (sess : EvRefs) (h : EvHeap) :
    EvRefs × EvRefs × EvHeap :=
  let ps := seedRefs sess
  let h1 := node_extractH text ps h
  (mergeBackH ps, ps, h1)

/-! ### Spec-side formulations (for refinement comparisons) -/

/-- The confidence formula as the specification words it: 0.18 per strong
phrase, 0.05 per vocabulary keyword (double counting shared terms), 0.25 for
a link, 0.25 for a payment handle, 0.10 for a phone number, clipped to 1. -/
def specConfidence (text : String) : ℚ :=
  let t := text.data.map Char.toLower
  min ((0.18 : ℚ) * (HIGH_PHRASES.countP (fun p => containsSub t p.data) : ℚ) +
       (0.05 : ℚ) * (SUSPICIOUS_KEYWORDS.countP (fun k => containsSub t k.data) : ℚ) +
       (if reSearch matchURL text.data || reSearch matchShort text.data then (0.25 : ℚ) else 0) +
       (if reSearch matchUPI text.data then (0.25 : ℚ) else 0) +
       (if reSearch matchPhone text.data then (0.10 : ℚ) else 0)) 1

/-- The finalize policy's category count as the specification words it: how
many of the four artifact categories {links, paymentHandles, phoneNumbers,
accountNumbers} are non-empty (keywords are not an input at all). -/
def specCategoryCount (links : Finset String) (upis : Finset (String × String))
    (phones banks : Finset String) : Nat :=
  (if links.Nonempty then 1 else 0) + (if upis.Nonempty then 1 else 0) +
  (if phones.Nonempty then 1 else 0) + (if banks.Nonempty then 1 else 0)

/-- The message text of spec Scenario 1. -/
def C1_TEXT : String :=
  "Your account will be blocked today! Verify via bit.ly/xyz123 or pay to upi@ybl, call 9876543210"

/-! ### Helper lemmas about the pipeline stages -/

/-- The reply stage changes only the `reply` field. -/
theorem node_reply_only_reply (hf : Option String) (st : PState) :
    node_reply_llm hf st = { st with reply := (node_reply_llm hf st).reply } := by
  unfold node_reply_llm
  split
  · rfl
  · cases hf <;> rfl

/-- The callback bookkeeping changes only the `agentNotes` field. -/
theorem applyCb_only_notes (cb : CbResult) (sess : Session) :
    applyCb cb sess = { sess with agentNotes := (applyCb cb sess).agentNotes } := by
  cases cb with
  | ok status => simp only [applyCb]; split <;> rfl
  | exn => rfl

theorem runPipeline_confidence (T : Nat) (hf : Option String) (st : PState) :
    (runPipeline T hf st).confidence = scoreScam st.incoming_text := by
  rw [runPipeline, node_reply_only_reply]; rfl

theorem runPipeline_scamDetected (T : Nat) (hf : Option String) (st : PState) :
    (runPipeline T hf st).scamDetected
      = decide (SCAM_THRESHOLD ≤ scoreScam st.incoming_text) := by
  rw [runPipeline, node_reply_only_reply]; rfl

theorem runPipeline_bankAccounts (T : Nat) (hf : Option String) (st : PState) :
    (runPipeline T hf st).bankAccounts
      = st.bankAccounts ∪ (extractArtifacts st.incoming_text).bankAccounts := by
  rw [runPipeline, node_reply_only_reply]; rfl

theorem runPipeline_upiIds (T : Nat) (hf : Option String) (st : PState) :
    (runPipeline T hf st).upiIds
      = st.upiIds ∪ (extractArtifacts st.incoming_text).upiIds := by
  rw [runPipeline, node_reply_only_reply]; rfl

theorem runPipeline_phishingLinks (T : Nat) (hf : Option String) (st : PState) :
    (runPipeline T hf st).phishingLinks
      = st.phishingLinks ∪ (extractArtifacts st.incoming_text).phishingLinks := by
  rw [runPipeline, node_reply_only_reply]; rfl

theorem runPipeline_phoneNumbers (T : Nat) (hf : Option String) (st : PState) :
    (runPipeline T hf st).phoneNumbers
      = st.phoneNumbers ∪ (extractArtifacts st.incoming_text).phoneNumbers := by
  rw [runPipeline, node_reply_only_reply]; rfl

theorem runPipeline_suspiciousKeywords (T : Nat) (hf : Option String) (st : PState) :
    (runPipeline T hf st).suspiciousKeywords
      = st.suspiciousKeywords ∪ (extractArtifacts st.incoming_text).suspiciousKeywords := by
  rw [runPipeline, node_reply_only_reply]; rfl

theorem runPipeline_shouldFinalize (T : Nat) (hf : Option String) (st : PState) :
    (runPipeline T hf st).shouldFinalize
      = ((runPipeline T hf st).scamDetected &&
          decide (T ≤ strongCount (node_extract (node_detect st)))) := by
  rw [runPipeline, node_reply_only_reply]; rfl

/-- A fold adding `q` for each element satisfying `p` is `q` times the count. -/
theorem foldl_addIf (q : Nat) (p : String → Bool) :
    ∀ (L : List String) (a : Nat),
      L.foldl (fun acc s => if p s then acc + q else acc) a
        = a + q * L.countP p := by
  intro L
  induction L with
  | nil => intro a; simp
  | cons s L ih =>
    intro a
    by_cases h : p s <;> simp [List.foldl_cons, h, List.countP_cons, ih] <;> ring

/-- Clipping in hundredths agrees with rational clipping at 1. -/
theorem mkRat_min100 (n : Nat) :
    mkRat ((min n 100 : ℕ) : ℤ) 100 = min ((n : ℚ) / 100) 1 := by
  rcases le_or_lt n 100 with h | h
  · rw [min_eq_left h, Rat.mkRat_eq_div,
      min_eq_left ((div_le_one (by norm_num : (0 : ℚ) < 100)).mpr (by exact_mod_cast h))]
    push_cast
    ring
  · rw [min_eq_right (le_of_lt h), Rat.mkRat_eq_div,
      min_eq_right ((one_le_div (by norm_num : (0 : ℚ) < 100)).mpr (by exact_mod_cast le_of_lt h))]
    norm_num

/-- C6: for every message text, the confidence equals the additive heuristic
of the specification — 0.18 per strong phrase found case-insensitively,
0.05 per vocabulary keyword (terms in both lists contribute to both bands),
0.25 for a URL/shortened link, 0.25 for a payment handle, 0.10 for a phone
number, clipped to 1.0 — so confidence lies in [0, 1]; it is a pure function
of the single message text (the detect stage reads nothing else), and
`scamDetected` is exactly `confidence ≥ 0.35`, which the pipeline's output
preserves. -/
theorem c6_confidence_additive :
    (∀ text : String, scoreScam text = specConfidence text) ∧
    (∀ text : String, 0 ≤ scoreScam text ∧ scoreScam text ≤ 1) ∧
    (∀ st : PState,
      (node_detect st).confidence = scoreScam st.incoming_text ∧
      (node_detect st).scamDetected
        = decide ((0.35 : ℚ) ≤ scoreScam st.incoming_text)) ∧
    (∀ (T : Nat) (hf : Option String) (st : PState),
      (runPipeline T hf st).confidence = scoreScam st.incoming_text ∧
      (runPipeline T hf st).scamDetected
        = decide ((0.35 : ℚ) ≤ scoreScam st.incoming_text)) := by
  have hform : ∀ text : String, scoreScam text = specConfidence text := by
    intro text
    have hcenti : scoreCenti text
        = min (18 * HIGH_PHRASES.countP
                (fun p => containsSub (text.data.map Char.toLower) p.data) +
              5 * SUSPICIOUS_KEYWORDS.countP
                (fun k => containsSub (text.data.map Char.toLower) k.data) +
              (if reSearch matchURL text.data || reSearch matchShort text.data then 25 else 0) +
              (if reSearch matchUPI text.data then 25 else 0) +
              (if reSearch matchPhone text.data then 10 else 0)) 100 := by
      simp only [scoreCenti]
      rw [foldl_addIf, foldl_addIf]
      congr 1
      split_ifs <;> ring
    rw [scoreScam, hcenti, mkRat_min100]
    simp only [specConfidence]
    congr 1
    split_ifs <;>
      (push_cast
       rw [div_eq_iff (by norm_num : (100 : ℚ) ≠ 0)]
       ring)
  refine ⟨hform, ?_, ?_, ?_⟩
  · intro text
    constructor
    · rw [hform]
      simp only [specConfidence]
      refine le_min ?_ (by norm_num)
      split_ifs <;> positivity
    · rw [hform]; exact min_le_right _ _
  · intro st
    refine ⟨rfl, ?_⟩
    show decide (SCAM_THRESHOLD ≤ scoreScam st.incoming_text)
      = decide ((0.35 : ℚ) ≤ scoreScam st.incoming_text)
    rw [SCAM_THRESHOLD_exact]
  · intro T hf st
    refine ⟨runPipeline_confidence T hf st, ?_⟩
    rw [runPipeline_scamDetected, SCAM_THRESHOLD_exact]

/-- The session value after one `handle_message` turn accumulates exactly
this message's bank-account artifacts (and similarly for the other four
categories in the lemmas below). -/
theorem hm_bankAccounts (T : Nat) (sid : String) (sess : Session) (msg : MsgIn)
    (hf : Option String) (cb : CbResult) (now : Nat) :
    ((handleMessage T sid sess msg hf cb now).1).bankAccounts
      = sess.bankAccounts ∪ (extractArtifacts msg.text).bankAccounts := by
  simp only [handleMessage]
  split
  · rw [applyCb_only_notes]; exact runPipeline_bankAccounts T hf _
  · exact runPipeline_bankAccounts T hf _

theorem hm_upiIds (T : Nat) (sid : String) (sess : Session) (msg : MsgIn)
    (hf : Option String) (cb : CbResult) (now : Nat) :
    ((handleMessage T sid sess msg hf cb now).1).upiIds
      = sess.upiIds ∪ (extractArtifacts msg.text).upiIds := by
  simp only [handleMessage]
  split
  · rw [applyCb_only_notes]; exact runPipeline_upiIds T hf _
  · exact runPipeline_upiIds T hf _

theorem hm_phishingLinks (T : Nat) (sid : String) (sess : Session) (msg : MsgIn)
    (hf : Option String) (cb : CbResult) (now : Nat) :
    ((handleMessage T sid sess msg hf cb now).1).phishingLinks
      = sess.phishingLinks ∪ (extractArtifacts msg.text).phishingLinks := by
  simp only [handleMessage]
  split
  · rw [applyCb_only_notes]; exact runPipeline_phishingLinks T hf _
  · exact runPipeline_phishingLinks T hf _

theorem hm_phoneNumbers (T : Nat) (sid : String) (sess : Session) (msg : MsgIn)
    (hf : Option String) (cb : CbResult) (now : Nat) :
    ((handleMessage T sid sess msg hf cb now).1).phoneNumbers
      = sess.phoneNumbers ∪ (extractArtifacts msg.text).phoneNumbers := by
  simp only [handleMessage]
  split
  · rw [applyCb_only_notes]; exact runPipeline_phoneNumbers T hf _
  · exact runPipeline_phoneNumbers T hf _

theorem hm_suspiciousKeywords (T : Nat) (sid : String) (sess : Session) (msg : MsgIn)
    (hf : Option String) (cb : CbResult) (now : Nat) :
    ((handleMessage T sid sess msg hf cb now).1).suspiciousKeywords
      = sess.suspiciousKeywords ∪ (extractArtifacts msg.text).suspiciousKeywords := by
  simp only [handleMessage]
  split
  · rw [applyCb_only_notes]; exact runPipeline_suspiciousKeywords T hf _
  · exact runPipeline_suspiciousKeywords T hf _

/-- Whether a report was emitted this turn, as a function of the pipeline
output and the pre-turn latch. -/
theorem hm_rep_char (T : Nat) (sid : String) (sess : Session) (msg : MsgIn)
    (hf : Option String) (cb : CbResult) (now : Nat) :
    ((handleMessage T sid sess msg hf cb now).2.2).isSome
      = ((runPipeline T hf (seedState sess msg)).scamDetected && !sess.finalized &&
          (runPipeline T hf (seedState sess msg)).shouldFinalize) := by
  simp only [handleMessage]
  split
  · next hc => exact hc.symm
  · next hc => exact (Bool.not_eq_true _ |>.mp hc).symm

/-- `finalized` after a turn is the pre-turn latch or-ed with the emission of
a report this turn. -/
theorem hm_finalized_or (T : Nat) (sid : String) (sess : Session) (msg : MsgIn)
    (hf : Option String) (cb : CbResult) (now : Nat) :
    ((handleMessage T sid sess msg hf cb now).1).finalized
      = (sess.finalized || ((handleMessage T sid sess msg hf cb now).2.2).isSome) := by
  simp only [handleMessage]
  split
  · rw [applyCb_only_notes]; simp
  · simp

/-- An already-finalized session stays finalized and emits no report. -/
theorem hm_latch (T : Nat) (sid : String) (sess : Session) (msg : MsgIn)
    (hf : Option String) (cb : CbResult) (now : Nat) (h : sess.finalized = true) :
    ((handleMessage T sid sess msg hf cb now).1).finalized = true ∧
    (handleMessage T sid sess msg hf cb now).2.2 = none := by
  simp only [handleMessage]
  split
  · next hc => rw [h] at hc; simp at hc
  · exact ⟨h, rfl⟩

/-- If no report was emitted, the latch is unchanged. -/
theorem hm_no_rep_finalized (T : Nat) (sid : String) (sess : Session) (msg : MsgIn)
    (hf : Option String) (cb : CbResult) (now : Nat)
    (h : (handleMessage T sid sess msg hf cb now).2.2 = none) :
    ((handleMessage T sid sess msg hf cb now).1).finalized = sess.finalized := by
  rw [hm_finalized_or, h]
  simp

/-- The reply returned to the caller, as a function of the pipeline reply. -/
theorem hm_reply (T : Nat) (sid : String) (sess : Session) (msg : MsgIn)
    (hf : Option String) (cb : CbResult) (now : Nat) :
    ((handleMessage T sid sess msg hf cb now).2.1).reply
      = (if (runPipeline T hf (seedState sess msg)).reply = "" then OKAY_REPLY
         else (runPipeline T hf (seedState sess msg)).reply) := by
  simp only [handleMessage]
  split <;> rfl

/-- C2: for every message, session state and threshold `T`
(`FINALIZE_MIN_ARTIFACTS`, default 3), the pipeline's `shouldFinalize` is
true iff the message's `scamDetected` is true and at least `T` of the four
categories {links, paymentHandles, phoneNumbers, accountNumbers} are
non-empty in the session's cumulative evidence after merging this message's
extraction; the keyword category never influences the outcome. -/
theorem c2_should_finalize_iff (T : Nat) (sess : Session) (msg : MsgIn)
    (hf : Option String) :
    ((runPipeline T hf (seedState sess msg)).shouldFinalize
      = ((runPipeline T hf (seedState sess msg)).scamDetected &&
          decide (T ≤ specCategoryCount
            (sess.phishingLinks ∪ (extractArtifacts msg.text).phishingLinks)
            (sess.upiIds ∪ (extractArtifacts msg.text).upiIds)
            (sess.phoneNumbers ∪ (extractArtifacts msg.text).phoneNumbers)
            (sess.bankAccounts ∪ (extractArtifacts msg.text).bankAccounts)))) ∧
    (∀ K : Finset String,
      (runPipeline T hf (seedState { sess with suspiciousKeywords := K } msg)).shouldFinalize
        = (runPipeline T hf (seedState sess msg)).shouldFinalize) := by
  constructor
  · rw [runPipeline_shouldFinalize]
    have hsc : strongCount (node_extract (node_detect (seedState sess msg)))
        = specCategoryCount
            (sess.phishingLinks ∪ (extractArtifacts msg.text).phishingLinks)
            (sess.upiIds ∪ (extractArtifacts msg.text).upiIds)
            (sess.phoneNumbers ∪ (extractArtifacts msg.text).phoneNumbers)
            (sess.bankAccounts ∪ (extractArtifacts msg.text).bankAccounts) := by
      simp [strongCount, specCategoryCount, node_extract, node_detect, seedState,
        Finset.card_pos]
    rw [hsc]
  · intro K
    rw [runPipeline_shouldFinalize, runPipeline_shouldFinalize,
      runPipeline_scamDetected, runPipeline_scamDetected]
    rfl

/-- C4: every evidence category of a session is monotonically non-decreasing,
both over a single processed message and over any sequence of turns; a turn
only ever adds elements (the post-turn set is the pre-turn set unioned with
the message's extraction, per the `hm_*` lemmas above). -/
theorem c4_evidence_monotone :
    (∀ (T : Nat) (sid : String) (sess : Session) (msg : MsgIn)
        (hf : Option String) (cb : CbResult) (now : Nat),
      sess.bankAccounts ⊆ ((handleMessage T sid sess msg hf cb now).1).bankAccounts ∧
      sess.upiIds ⊆ ((handleMessage T sid sess msg hf cb now).1).upiIds ∧
      sess.phishingLinks ⊆ ((handleMessage T sid sess msg hf cb now).1).phishingLinks ∧
      sess.phoneNumbers ⊆ ((handleMessage T sid sess msg hf cb now).1).phoneNumbers ∧
      sess.suspiciousKeywords ⊆ ((handleMessage T sid sess msg hf cb now).1).suspiciousKeywords) ∧
    (∀ (T : Nat) (sid : String) (sess : Session) (turns : List TurnIn),
      sess.bankAccounts ⊆ ((processTrace T sid sess turns).1).bankAccounts ∧
      sess.upiIds ⊆ ((processTrace T sid sess turns).1).upiIds ∧
      sess.phishingLinks ⊆ ((processTrace T sid sess turns).1).phishingLinks ∧
      sess.phoneNumbers ⊆ ((processTrace T sid sess turns).1).phoneNumbers ∧
      sess.suspiciousKeywords ⊆ ((processTrace T sid sess turns).1).suspiciousKeywords) := by
  have hstep : ∀ (T : Nat) (sid : String) (sess : Session) (msg : MsgIn)
      (hf : Option String) (cb : CbResult) (now : Nat),
      sess.bankAccounts ⊆ ((handleMessage T sid sess msg hf cb now).1).bankAccounts ∧
      sess.upiIds ⊆ ((handleMessage T sid sess msg hf cb now).1).upiIds ∧
      sess.phishingLinks ⊆ ((handleMessage T sid sess msg hf cb now).1).phishingLinks ∧
      sess.phoneNumbers ⊆ ((handleMessage T sid sess msg hf cb now).1).phoneNumbers ∧
      sess.suspiciousKeywords ⊆ ((handleMessage T sid sess msg hf cb now).1).suspiciousKeywords := by
    intro T sid sess msg hf cb now
    rw [hm_bankAccounts, hm_upiIds, hm_phishingLinks, hm_phoneNumbers, hm_suspiciousKeywords]
    exact ⟨Finset.subset_union_left, Finset.subset_union_left, Finset.subset_union_left,
      Finset.subset_union_left, Finset.subset_union_left⟩
  refine ⟨hstep, ?_⟩
  intro T sid sess turns
  induction turns generalizing sess with
  | nil => exact ⟨subset_rfl, subset_rfl, subset_rfl, subset_rfl, subset_rfl⟩
  | cons turn rest ih =>
    have h1 := hstep T sid sess turn.msg turn.hf turn.cb turn.now
    have h2 := ih (handleMessage T sid sess turn.msg turn.hf turn.cb turn.now).1
    simp only [processTrace]
    exact ⟨h1.1.trans h2.1, h1.2.1.trans h2.2.1, h1.2.2.1.trans h2.2.2.1,
      h1.2.2.2.1.trans h2.2.2.2.1, h1.2.2.2.2.trans h2.2.2.2.2⟩

/-- C10: the endpoint never returns an empty reply: if the pipeline's reply
is empty (for instance when the generation service successfully returned
whitespace whose first line strips to the empty string) the handler
substitutes the fixed constant `OKAY_REPLY`, which is a different constant
from the reply stage's failure fallback. -/
theorem c10_reply_nonempty :
    (∀ (T : Nat) (sid : String) (sess : Session) (msg : MsgIn)
        (hf : Option String) (cb : CbResult) (now : Nat),
      ((handleMessage T sid sess msg hf cb now).2.1).reply
        = (if (runPipeline T hf (seedState sess msg)).reply = "" then OKAY_REPLY
           else (runPipeline T hf (seedState sess msg)).reply) ∧
      ((handleMessage T sid sess msg hf cb now).2.1).reply ≠ "") ∧
    OKAY_REPLY ≠ FALLBACK_REPLY := by
  refine ⟨?_, by decide⟩
  intro T sid sess msg hf cb now
  refine ⟨hm_reply T sid sess msg hf cb now, ?_⟩
  rw [hm_reply]
  split
  · decide
  · next h => exact h

/-- C3: `finalized` is a one-way latch and the report is at-most-once: a
fresh session starts un-finalized; once finalized, a session stays finalized
and never emits another report; a turn that emits a report leaves the latch
set; the latch after a turn does not depend on the callback outcome (a
delivery failure does not reset it, and nothing is retried); and any trace
from a fresh session emits at most one report. -/
theorem c3_finalize_once :
    (∀ now : Nat, (freshSession now).finalized = false) ∧
    (∀ (T : Nat) (sid : String) (sess : Session) (msg : MsgIn)
        (hf : Option String) (cb : CbResult) (now : Nat),
      sess.finalized = true →
        ((handleMessage T sid sess msg hf cb now).1).finalized = true ∧
        (handleMessage T sid sess msg hf cb now).2.2 = none) ∧
    (∀ (T : Nat) (sid : String) (sess : Session) (msg : MsgIn)
        (hf : Option String) (cb : CbResult) (now : Nat),
      (handleMessage T sid sess msg hf cb now).2.2 ≠ none →
        ((handleMessage T sid sess msg hf cb now).1).finalized = true) ∧
    (∀ (T : Nat) (sid : String) (sess : Session) (msg : MsgIn)
        (hf : Option String) (cb cb' : CbResult) (now : Nat),
      ((handleMessage T sid sess msg hf cb now).1).finalized
        = ((handleMessage T sid sess msg hf cb' now).1).finalized) ∧
    (∀ (T : Nat) (sid : String) (sess : Session) (turns : List TurnIn),
      sess.finalized = true → (processTrace T sid sess turns).2 = []) ∧
    (∀ (T : Nat) (sid : String) (now : Nat) (turns : List TurnIn),
      ((processTrace T sid (freshSession now) turns).2).length ≤ 1) := by
  have hrep : ∀ (T : Nat) (sid : String) (sess : Session) (msg : MsgIn)
      (hf : Option String) (cb : CbResult) (now : Nat),
      (handleMessage T sid sess msg hf cb now).2.2 ≠ none →
      ((handleMessage T sid sess msg hf cb now).1).finalized = true := by
    intro T sid sess msg hf cb now h
    rw [hm_finalized_or]
    cases hx : (handleMessage T sid sess msg hf cb now).2.2 with
    | none => exact absurd hx h
    | some r => simp [hx]
  have hlatchTrace : ∀ (T : Nat) (sid : String) (turns : List TurnIn) (sess : Session),
      sess.finalized = true → (processTrace T sid sess turns).2 = [] := by
    intro T sid turns
    induction turns with
    | nil => intro sess _; rfl
    | cons turn rest ih =>
      intro sess h
      have hstep := hm_latch T sid sess turn.msg turn.hf turn.cb turn.now h
      simp only [processTrace, hstep.2, Option.toList_none, List.nil_append]
      exact ih _ hstep.1
  have hboundTrace : ∀ (T : Nat) (sid : String) (turns : List TurnIn) (sess : Session),
      ((processTrace T sid sess turns).2).length ≤ (if sess.finalized then 0 else 1) := by
    intro T sid turns
    induction turns with
    | nil => intro sess; simp [processTrace]
    | cons turn rest ih =>
      intro sess
      cases hx : (handleMessage T sid sess turn.msg turn.hf turn.cb turn.now).2.2 with
      | none =>
        have hfin := hm_no_rep_finalized T sid sess turn.msg turn.hf turn.cb turn.now hx
        have := ih (handleMessage T sid sess turn.msg turn.hf turn.cb turn.now).1
        rw [hfin] at this
        simp only [processTrace, hx, Option.toList_none, List.nil_append]
        exact this
      | some r =>
        have hfin := hrep T sid sess turn.msg turn.hf turn.cb turn.now (by rw [hx]; exact Option.some_ne_none r)
        have htail := hlatchTrace T sid rest _ hfin
        simp only [processTrace, hx, Option.toList_some, htail]
        split
        · next hT =>
          have hn := (hm_latch T sid sess turn.msg turn.hf turn.cb turn.now hT).2
          rw [hx] at hn
          exact absurd hn (by simp)
        · simp
  refine ⟨fun _ => rfl, ?_, hrep, ?_, fun T sid sess turns => hlatchTrace T sid turns sess, ?_⟩
  · intro T sid sess msg hf cb now h
    exact hm_latch T sid sess msg hf cb now h
  · intro T sid sess msg hf cb cb' now
    rw [hm_finalized_or, hm_finalized_or, hm_rep_char, hm_rep_char]
  · intro T sid now turns
    exact le_trans (hboundTrace T sid turns (freshSession now)) (by simp [freshSession])

/-- Concrete instantiation of the latch clause of `c3_finalize_once`: a
finalized session processing another scam message emits no further report
and stays finalized. -/
theorem c3_finalize_once_witness :
    ({ freshSession 0 with finalized := true } : Session).finalized = true ∧
    (((handleMessage 3 "s1" { freshSession 0 with finalized := true }
        ⟨"scammer", C1_TEXT, []⟩ none CbResult.exn 7).1).finalized = true ∧
      (handleMessage 3 "s1" { freshSession 0 with finalized := true }
        ⟨"scammer", C1_TEXT, []⟩ none CbResult.exn 7).2.2 = none) :=
  ⟨rfl, c3_finalize_once.2.1 3 "s1" { freshSession 0 with finalized := true }
    ⟨"scammer", C1_TEXT, []⟩ none CbResult.exn 7 rfl⟩

/-- C7 counterexample: when the generation call *succeeds* with an empty
response (no exception is raised, e.g. an empty `content` field), the reply
stage does not substitute its failure fallback — it stores the empty first
line, so the claim that every empty response yields the fixed fallback reply
is false on the code.  The message "otp cvv pin" is detected as scam, so the
generation branch is exercised. -/
theorem c7_empty_response_counterexample :
    ((runPipeline 3 (some "") (seedState (freshSession 0) ⟨"scammer", "otp cvv pin", []⟩)).scamDetected = true) ∧
    ((runPipeline 3 (some "") (seedState (freshSession 0) ⟨"scammer", "otp cvv pin", []⟩)).reply = "") ∧
    ((runPipeline 3 (some "") (seedState (freshSession 0) ⟨"scammer", "otp cvv pin", []⟩)).reply
      ≠ FALLBACK_REPLY) := by
  refine ⟨by decide, by decide, by decide⟩

/-- C7 (amended): when the generation *call raises* (timeout, HTTP error
status, malformed body), the reply stage substitutes the fixed fallback
reply; the failure is never propagated, and the message's confidence,
detection flag, evidence sets, finalize flag — and the resulting session
state and report — are identical to a run in which generation succeeded.
(A successful empty response instead leaves an empty reply, which the
endpoint replaces with its own constant; see C10.) -/
theorem c7_generation_failure_fallback (T : Nat) (st : PState) (r : String) :
    ((runPipeline T none st).confidence = (runPipeline T (some r) st).confidence ∧
     (runPipeline T none st).scamDetected = (runPipeline T (some r) st).scamDetected ∧
     (runPipeline T none st).bankAccounts = (runPipeline T (some r) st).bankAccounts ∧
     (runPipeline T none st).upiIds = (runPipeline T (some r) st).upiIds ∧
     (runPipeline T none st).phishingLinks = (runPipeline T (some r) st).phishingLinks ∧
     (runPipeline T none st).phoneNumbers = (runPipeline T (some r) st).phoneNumbers ∧
     (runPipeline T none st).suspiciousKeywords = (runPipeline T (some r) st).suspiciousKeywords ∧
     (runPipeline T none st).shouldFinalize = (runPipeline T (some r) st).shouldFinalize) ∧
    ((runPipeline T none st).scamDetected = true →
      (runPipeline T none st).reply = FALLBACK_REPLY) ∧
    (∀ (sid : String) (sess : Session) (msg : MsgIn) (cb : CbResult) (now : Nat),
      (handleMessage T sid sess msg none cb now).1
        = (handleMessage T sid sess msg (some r) cb now).1 ∧
      (handleMessage T sid sess msg none cb now).2.2
        = (handleMessage T sid sess msg (some r) cb now).2.2) := by
  have honly : ∀ (hf : Option String) (stx : PState), runPipeline T hf stx
      = { node_decide T (node_extract (node_detect stx)) with
          reply := (runPipeline T hf stx).reply } := by
    intro hf stx
    conv_lhs => rw [runPipeline, node_reply_only_reply]
    rfl
  refine ⟨?_, ?_, ?_⟩
  · rw [honly none st, honly (some r) st]
    exact ⟨rfl, rfl, rfl, rfl, rfl, rfl, rfl, rfl⟩
  · intro hscam
    rw [runPipeline_scamDetected] at hscam
    rw [runPipeline]
    unfold node_reply_llm
    rw [show (node_decide T (node_extract (node_detect st))).scamDetected = true from hscam]
    rfl
  · intro sid sess msg cb now
    constructor
    · simp only [handleMessage]
      rw [honly none, honly (some r)]
      dsimp only
      split <;> rfl
    · simp only [handleMessage]
      rw [honly none, honly (some r)]
      dsimp only
      split <;> rfl

/-- Concrete instantiation of the fallback clause of
`c7_generation_failure_fallback`: on the scam message "otp cvv pin" with a
raising generation call, the reply is the fixed fallback. -/
theorem c7_generation_failure_fallback_witness :
    (runPipeline 3 none (seedState (freshSession 0) ⟨"scammer", "otp cvv pin", []⟩)).scamDetected = true ∧
    (runPipeline 3 none (seedState (freshSession 0) ⟨"scammer", "otp cvv pin", []⟩)).reply = FALLBACK_REPLY :=
  ⟨by decide,
    (c7_generation_failure_fallback 3
      (seedState (freshSession 0) ⟨"scammer", "otp cvv pin", []⟩) "x").2.1 (by decide)⟩

/-- C5 counterexample: the pipeline state is seeded with the session's own
`set` objects (the very same references, not copies), and the extract stage
therefore mutates the session's stored evidence in place *before* the
merge-back: with a fresh session owning cells 0–4 on an empty heap, after
`node_extract` on "call 9876543210" — and before any merge-back — the cell
the session's `phoneNumbers` key refers to has already changed. -/
theorem c5_alias_counterexample :
    (seedRefs ⟨0, 1, 2, 3, 4⟩).phoneNumbers = (⟨0, 1, 2, 3, 4⟩ : EvRefs).phoneNumbers ∧
    (node_extractH "call 9876543210" (seedRefs ⟨0, 1, 2, 3, 4⟩)
        ⟨fun _ => ∅, fun _ => ∅⟩).strCell (⟨0, 1, 2, 3, 4⟩ : EvRefs).phoneNumbers
      ≠ (⟨fun _ => ∅, fun _ => ∅⟩ : EvHeap).strCell (⟨0, 1, 2, 3, 4⟩ : EvRefs).phoneNumbers ∧
    (node_extractH "call 9876543210" (seedRefs ⟨0, 1, 2, 3, 4⟩)
        ⟨fun _ => ∅, fun _ => ∅⟩).strCell (⟨0, 1, 2, 3, 4⟩ : EvRefs).phoneNumbers
      = {"9876543210"} := by
  exact ⟨rfl, by decide, by decide⟩

/-- C5 (amended): the pipeline state's evidence keys are seeded as the
session's own set references (aliases, not copies); the session's sets are
therefore already mutated during the extract stage, and the final merge-back
re-binds the session keys to those same (grown) objects — so the net effect
on every category is exactly a union with the message's extraction, and the
session's stored evidence is never replaced by anything smaller. -/
theorem c5_alias_merge_union (text : String) (sess : EvRefs) (h : EvHeap)
    (hbl : sess.bankAccounts ≠ sess.phishingLinks)
    (hbp : sess.bankAccounts ≠ sess.phoneNumbers)
    (hbk : sess.bankAccounts ≠ sess.suspiciousKeywords)
    (hlp : sess.phishingLinks ≠ sess.phoneNumbers)
    (hlk : sess.phishingLinks ≠ sess.suspiciousKeywords)
    (hpk : sess.phoneNumbers ≠ sess.suspiciousKeywords) :
    seedRefs sess = sess ∧
    (handleEvidenceH text sess h).1 = sess ∧
    (handleEvidenceH text sess h).2.2.strCell sess.phishingLinks
      = h.strCell sess.phishingLinks ∪ (extractArtifacts text).phishingLinks ∧
    (handleEvidenceH text sess h).2.2.pairCell sess.upiIds
      = h.pairCell sess.upiIds ∪ (extractArtifacts text).upiIds ∧
    (handleEvidenceH text sess h).2.2.strCell sess.phoneNumbers
      = h.strCell sess.phoneNumbers ∪ (extractArtifacts text).phoneNumbers ∧
    (handleEvidenceH text sess h).2.2.strCell sess.bankAccounts
      = h.strCell sess.bankAccounts ∪ (extractArtifacts text).bankAccounts ∧
    (handleEvidenceH text sess h).2.2.strCell sess.suspiciousKeywords
      = h.strCell sess.suspiciousKeywords ∪ (extractArtifacts text).suspiciousKeywords ∧
    h.strCell sess.phishingLinks ⊆ (handleEvidenceH text sess h).2.2.strCell sess.phishingLinks ∧
    h.pairCell sess.upiIds ⊆ (handleEvidenceH text sess h).2.2.pairCell sess.upiIds ∧
    h.strCell sess.phoneNumbers ⊆ (handleEvidenceH text sess h).2.2.strCell sess.phoneNumbers ∧
    h.strCell sess.bankAccounts ⊆ (handleEvidenceH text sess h).2.2.strCell sess.bankAccounts ∧
    h.strCell sess.suspiciousKeywords
      ⊆ (handleEvidenceH text sess h).2.2.strCell sess.suspiciousKeywords := by
  have hLk : (handleEvidenceH text sess h).2.2.strCell sess.phishingLinks
      = h.strCell sess.phishingLinks ∪ (extractArtifacts text).phishingLinks := by
    simp [handleEvidenceH, node_extractH, updStr, updPair, seedRefs,
      hbl, hbl.symm, hbp, hbp.symm, hbk, hbk.symm, hlp, hlp.symm, hlk, hlk.symm, hpk, hpk.symm]
  have hUp : (handleEvidenceH text sess h).2.2.pairCell sess.upiIds
      = h.pairCell sess.upiIds ∪ (extractArtifacts text).upiIds := by
    simp [handleEvidenceH, node_extractH, updStr, updPair, seedRefs]
  have hPh : (handleEvidenceH text sess h).2.2.strCell sess.phoneNumbers
      = h.strCell sess.phoneNumbers ∪ (extractArtifacts text).phoneNumbers := by
    simp [handleEvidenceH, node_extractH, updStr, updPair, seedRefs,
      hbl, hbl.symm, hbp, hbp.symm, hbk, hbk.symm, hlp, hlp.symm, hlk, hlk.symm, hpk, hpk.symm]
  have hBa : (handleEvidenceH text sess h).2.2.strCell sess.bankAccounts
      = h.strCell sess.bankAccounts ∪ (extractArtifacts text).bankAccounts := by
    simp [handleEvidenceH, node_extractH, updStr, updPair, seedRefs,
      hbl, hbl.symm, hbp, hbp.symm, hbk, hbk.symm, hlp, hlp.symm, hlk, hlk.symm, hpk, hpk.symm]
  have hKw : (handleEvidenceH text sess h).2.2.strCell sess.suspiciousKeywords
      = h.strCell sess.suspiciousKeywords ∪ (extractArtifacts text).suspiciousKeywords := by
    simp [handleEvidenceH, node_extractH, updStr, updPair, seedRefs,
      hbl, hbl.symm, hbp, hbp.symm, hbk, hbk.symm, hlp, hlp.symm, hlk, hlk.symm, hpk, hpk.symm]
  refine ⟨rfl, rfl, hLk, hUp, hPh, hBa, hKw, ?_, ?_, ?_, ?_, ?_⟩
  · rw [hLk]; exact Finset.subset_union_left
  · rw [hUp]; exact Finset.subset_union_left
  · rw [hPh]; exact Finset.subset_union_left
  · rw [hBa]; exact Finset.subset_union_left
  · rw [hKw]; exact Finset.subset_union_left

/-- Concrete instantiation of `c5_alias_merge_union` at a fresh session with
distinct cells 0–4, an empty heap and the Scenario 1 text. -/
theorem c5_alias_merge_union_witness :
    ((0 : Nat) ≠ 2 ∧ (0 : Nat) ≠ 3 ∧ (0 : Nat) ≠ 4 ∧
     (2 : Nat) ≠ 3 ∧ (2 : Nat) ≠ 4 ∧ (3 : Nat) ≠ 4) ∧
    ((handleEvidenceH C1_TEXT ⟨0, 1, 2, 3, 4⟩ ⟨fun _ => ∅, fun _ => ∅⟩).1
        = (⟨0, 1, 2, 3, 4⟩ : EvRefs) ∧
     (handleEvidenceH C1_TEXT ⟨0, 1, 2, 3, 4⟩ ⟨fun _ => ∅, fun _ => ∅⟩).2.2.strCell 3
        = (⟨fun _ => ∅, fun _ => ∅⟩ : EvHeap).strCell 3 ∪ (extractArtifacts C1_TEXT).phoneNumbers) :=
  ⟨⟨by decide, by decide, by decide, by decide, by decide, by decide⟩,
    ⟨(c5_alias_merge_union C1_TEXT ⟨0, 1, 2, 3, 4⟩ ⟨fun _ => ∅, fun _ => ∅⟩
        (by decide) (by decide) (by decide) (by decide) (by decide) (by decide)).2.1,
     (c5_alias_merge_union C1_TEXT ⟨0, 1, 2, 3, 4⟩ ⟨fun _ => ∅, fun _ => ∅⟩
        (by decide) (by decide) (by decide) (by decide) (by decide) (by decide)).2.2.2.2.1⟩⟩

/-- C1 (Scenario 1, evaluated on the code): processing the scenario text in a
fresh session yields `scamDetected = true` with confidence exactly 1.0,
`phishingLinks` contains `"bit.ly/xyz123"`, `phoneNumbers` contains
`"9876543210"`, all four strong categories are populated (category count 4 ≥ 3)
so finalize fires and a report is emitted on this first message — but
`upiIds` contains the *pair* `("upi", "ybl")`, not the string `"upi@ybl"`:
`RE_UPI` has two capture groups, so `findall` returns 2-tuples and
`node_extract` adds the tuple itself to the set. -/
theorem c1_scenario_eval :
    scoreScam C1_TEXT = 1 ∧
    ((handleMessage 3 "session-1" (freshSession 0) ⟨"scammer", C1_TEXT, []⟩
        (some "Which bank is this about?") (CbResult.ok 200) 1).2.1).scamDetected = true ∧
    "bit.ly/xyz123" ∈ ((handleMessage 3 "session-1" (freshSession 0) ⟨"scammer", C1_TEXT, []⟩
        (some "Which bank is this about?") (CbResult.ok 200) 1).1).phishingLinks ∧
    "9876543210" ∈ ((handleMessage 3 "session-1" (freshSession 0) ⟨"scammer", C1_TEXT, []⟩
        (some "Which bank is this about?") (CbResult.ok 200) 1).1).phoneNumbers ∧
    ((handleMessage 3 "session-1" (freshSession 0) ⟨"scammer", C1_TEXT, []⟩
        (some "Which bank is this about?") (CbResult.ok 200) 1).1).upiIds = {("upi", "ybl")} ∧
    specCategoryCount (extractArtifacts C1_TEXT).phishingLinks
      (extractArtifacts C1_TEXT).upiIds (extractArtifacts C1_TEXT).phoneNumbers
      (extractArtifacts C1_TEXT).bankAccounts = 4 ∧
    ((handleMessage 3 "session-1" (freshSession 0) ⟨"scammer", C1_TEXT, []⟩
        (some "Which bank is this about?") (CbResult.ok 200) 1).1).finalized = true ∧
    ((handleMessage 3 "session-1" (freshSession 0) ⟨"scammer", C1_TEXT, []⟩
        (some "Which bank is this about?") (CbResult.ok 200) 1).2.2).isSome = true := by
  refine ⟨by decide, by decide, by decide, by decide, by decide, ?_, by decide, by decide⟩
  simp only [specCategoryCount]
  decide

/-! ### Scanner soundness and completeness lemmas (used by C9) -/

/-- The character immediately before the current suffix: the last character
of the consumed part `pre`, or the initial `prev` when nothing was consumed. -/
def lastOr (prev : Option Char) (pre : List Char) : Option Char :=
  match pre.getLast? with
  | some c => some c
  | none => prev

theorem lastOr_cons (prev : Option Char) (c : Char) (pre : List Char) :
    lastOr prev (c :: pre) = lastOr (some c) pre := by
  induction pre with
  | nil => rfl
  | cons a l ih =>
    unfold lastOr
    rw [List.getLast?_cons_cons]
    cases h : (a :: l).getLast? with
    | none => simp at h
    | some x => rfl

theorem lastOr_ne_nil (prev : Option Char) (pre : List Char) (h : pre ≠ []) :
    lastOr prev pre = pre.getLast? := by
  unfold lastOr
  cases hx : pre.getLast? with
  | none => exact absurd (List.getLast?_eq_none_iff.mp hx) h
  | some c => rfl

theorem getLast?_append_ne (l1 l2 : List Char) (h : l2 ≠ []) :
    (l1 ++ l2).getLast? = l2.getLast? := by
  induction l1 with
  | nil => rfl
  | cons a l ih =>
    have hne : l ++ l2 ≠ [] := by
      intro hx
      exact h (List.append_eq_nil.mp hx).2
    cases hx : l ++ l2 with
    | nil => exact absurd hx hne
    | cons b m =>
      rw [List.cons_append, hx, List.getLast?_cons_cons, ← hx, ih]

theorem getLast?_drop_ne (l : List Char) (k : Nat) (h : l.drop k ≠ []) :
    (l.drop k).getLast? = l.getLast? := by
  conv_rhs => rw [← List.take_append_drop k l]
  rw [getLast?_append_ne _ _ h]

theorem getLast?_cons_take (c : Char) (l : List Char) (k : Nat) (h : k ≤ l.length) :
    (c :: l.take k).getLast? = ((c :: l).drop k).head? := by
  induction k generalizing c l with
  | zero => simp
  | succ k ih =>
    cases l with
    | nil => simp at h
    | cons b m =>
      have := ih b m (by simpa using h)
      simpa [List.take_succ_cons, List.drop_succ_cons, List.getLast?_cons_cons] using this

theorem mem_dropWhile_of_neg (p : Char → Bool) (c : Char)
    (hp : p c = false) : ∀ (l : List Char), c ∈ l → c ∈ l.dropWhile p := by
  intro l
  induction l with
  | nil => intro h; exact absurd h (by simp)
  | cons a m ih =>
    intro h
    by_cases ha : p a
    · rw [List.dropWhile_cons_of_pos ha]
      rcases List.mem_cons.mp h with rfl | hm
      · rw [ha] at hp; cases hp
      · exact ih hm
    · rw [List.dropWhile_cons_of_neg ha]
      exact h

theorem dropWhile_of_all_neg (p : Char → Bool) :
    ∀ (l : List Char), (∀ c ∈ l, p c = false) → l.dropWhile p = l := by
  intro l
  cases l with
  | nil => intro _; rfl
  | cons a m =>
    intro h
    exact List.dropWhile_cons_of_neg (by rw [h a (by simp)]; simp)

theorem pyStrip_of_all_not_space (l : List Char)
    (h : ∀ c ∈ l, isPySpace c = false) : pyStrip l = l := by
  unfold pyStrip dropTrailing
  rw [dropWhile_of_all_neg _ _ h,
    dropWhile_of_all_neg _ _ (fun c hc => h c (List.mem_reverse.mp hc)),
    List.reverse_reverse]

theorem mem_pyStrip_head (c : Char) (l : List Char) (hc : isPySpace c = false) :
    c ∈ pyStrip (c :: l) := by
  unfold pyStrip dropTrailing
  rw [List.dropWhile_cons_of_neg (by rw [hc]; simp)]
  rw [List.mem_reverse]
  exact mem_dropWhile_of_neg _ _ hc _ (by simp)

theorem takeWhile_append_all (p : Char → Bool) :
    ∀ (l1 l2 : List Char), (∀ c ∈ l1, p c = true) →
      (l1 ++ l2).takeWhile p = l1 ++ l2.takeWhile p := by
  intro l1
  induction l1 with
  | nil => intro l2 _; rfl
  | cons a m ih =>
    intro l2 h
    rw [List.cons_append, List.takeWhile_cons_of_pos (h a (by simp)),
      ih l2 (fun c hc => h c (by simp [hc])), List.cons_append]

theorem all_of_takeWhile_le (p : Char → Bool) :
    ∀ (l1 l2 : List Char), l1.length ≤ ((l1 ++ l2).takeWhile p).length →
      ∀ c ∈ l1, p c = true := by
  intro l1
  induction l1 with
  | nil => intro l2 _ c hc; exact absurd hc (by simp)
  | cons a m ih =>
    intro l2 hlen c hc
    by_cases ha : p a
    · rw [List.cons_append, List.takeWhile_cons_of_pos ha] at hlen
      rcases List.mem_cons.mp hc with rfl | hm
      · exact ha
      · exact ih l2 (by simpa using hlen) c hm
    · rw [List.cons_append, List.takeWhile_cons_of_neg ha] at hlen
      simp at hlen

theorem digit_isWord (c : Char) (h : c.isDigit = true) : isWordChar c = true := by
  simp [isWordChar, Char.isAlphanum, h]

/-- Components of a successful ten-digit phone core. -/
theorem phoneCore_spec (s : List Char) (h : phoneCore s = true) :
    10 ≤ s.length ∧ (s.take 10).all (fun c => c.isDigit) = true ∧
    isWordOpt ((s.drop 10).head?) = false := by
  unfold phoneCore at h
  simp only [Bool.and_eq_true, decide_eq_true_eq, Bool.not_eq_true'] at h
  exact ⟨h.1.1.1, h.1.2, h.2⟩

/-- Soundness of the scan: every emitted artifact comes from a successful
match of the matcher at some split of the text, with the correct preceding
character.  Requires that the matcher never reports more consumed characters
than the suffix has. -/
theorem scanA_sound {α : Type} (m : Matcher α)
    (hwf : ∀ (p : Option Char) (s : List Char) (a : α) (k : Nat),
      m p s = some (a, k) → k + 1 ≤ s.length) :
    ∀ (N : Nat) (t : List Char), t.length ≤ N → ∀ (prev : Option Char) (a : α),
      a ∈ scanA m prev t →
      ∃ (pre suf : List Char) (n : Nat),
        t = pre ++ suf ∧ m (lastOr prev pre) suf = some (a, n) := by
  intro N
  induction N with
  | zero =>
    intro t ht prev a ha
    have : t = [] := List.eq_nil_of_length_eq_zero (Nat.le_zero.mp ht)
    subst this
    exact absurd ha (by simp [scanA, scanF])
  | succ N ih =>
    intro t ht prev a ha
    cases t with
    | nil => exact absurd ha (by simp [scanA, scanF])
    | cons c rest =>
      rw [scanA_cons] at ha
      cases hm : m prev (c :: rest) with
      | none =>
        rw [hm] at ha
        obtain ⟨pre, suf, n, heq, hmatch⟩ :=
          ih rest (by simpa using ht) (some c) a ha
        refine ⟨c :: pre, suf, n, by rw [heq, List.cons_append], ?_⟩
        rw [lastOr_cons]
        exact hmatch
      | some an =>
        obtain ⟨b, k⟩ := an
        rw [hm] at ha
        rcases List.mem_cons.mp ha with rfl | htail
        · exact ⟨[], c :: rest, k, rfl, hm⟩
        · have hk : k ≤ rest.length := by
            have := hwf prev (c :: rest) b k hm
            simpa using this
          have hlen : (rest.drop k).length ≤ N := by
            simp only [List.length_drop]
            simp only [List.length_cons] at ht
            omega
          obtain ⟨pre, suf, n, heq, hmatch⟩ :=
            ih (rest.drop k) hlen (((c :: rest).drop k).head?) a htail
          refine ⟨c :: rest.take k ++ pre, suf, n, ?_, ?_⟩
          · conv_lhs => rw [← List.take_append_drop k rest, heq]
            simp [List.append_assoc]
          · cases hpre : pre with
            | nil =>
              rw [hpre] at heq hmatch
              rw [List.append_nil]
              have h1 : lastOr prev (c :: rest.take k) = ((c :: rest).drop k).head? := by
                rw [lastOr_ne_nil _ _ (by simp), getLast?_cons_take c rest k hk]
              rw [h1]
              simpa using hmatch
            | cons p0 ps =>
              rw [hpre] at heq hmatch
              have h2 : lastOr prev (c :: rest.take k ++ p0 :: ps)
                  = lastOr (((c :: rest).drop k).head?) (p0 :: ps) := by
                rw [lastOr_ne_nil _ _ (by simp), lastOr_ne_nil _ _ (by simp),
                  getLast?_append_ne _ _ (by simp)]
              rw [h2]
              exact hmatch

/-- A successful `matchPhone` never consumes more than the suffix. -/
theorem matchPhone_wf (p : Option Char) (s : List Char) (a : String) (k : Nat)
    (h : matchPhone p s = some (a, k)) : k + 1 ≤ s.length := by
  unfold matchPhone at h
  split at h
  · next r =>
    split at h
    · cases r with
      | nil => simp at h
      | cons c r' =>
        dsimp only at h
        split at h
        · next hcond =>
          have hcore : phoneCore r' = true := (Bool.and_eq_true _ _ |>.mp hcond).2
          have h10 := (phoneCore_spec r' hcore).1
          simp only [Option.some.injEq, Prod.mk.injEq] at h
          obtain ⟨-, hk⟩ := h
          simp only [List.length_cons]
          omega
        · split at h
          · next hcore =>
            have h10 := (phoneCore_spec _ hcore).1
            simp only [Option.some.injEq, Prod.mk.injEq] at h
            obtain ⟨-, hk⟩ := h
            simp only [List.length_cons]
            simp only [List.length_cons] at h10
            omega
          · simp at h
    · simp at h
  · split at h
    · next hcond =>
      have hcore : phoneCore s = true := (Bool.and_eq_true _ _ |>.mp hcond).2
      have h10 := (phoneCore_spec s hcore).1
      simp only [Option.some.injEq, Prod.mk.injEq] at h
      obtain ⟨-, hk⟩ := h
      omega
    · simp at h

/-- Shape of a successful phone match: either it carries the `+91` country
prefix (and the matched string starts with `'+'`), or it is a bare ten-digit
match: the first ten characters of the suffix, reached over a word boundary,
with a valid phone core. -/
theorem matchPhone_some_shape (prev : Option Char) (s : List Char) (a : String)
    (n : Nat) (h : matchPhone prev s = some (a, n)) :
    (∃ t : List Char, a.data = '+' :: t) ∨
    (isWordOpt prev = false ∧ a.data = s.take 10 ∧ phoneCore s = true) := by
  unfold matchPhone at h
  split at h
  · next r =>
    split at h
    · cases r with
      | nil => simp at h
      | cons c r' =>
        dsimp only at h
        split at h
        · simp only [Option.some.injEq, Prod.mk.injEq] at h
          obtain ⟨ha, -⟩ := h
          exact Or.inl ⟨_, by rw [← ha]; rfl⟩
        · split at h
          · simp only [Option.some.injEq, Prod.mk.injEq] at h
            obtain ⟨ha, -⟩ := h
            exact Or.inl ⟨_, by rw [← ha]; rfl⟩
          · simp at h
    · simp at h
  · split at h
    · next hcond =>
      simp only [Bool.and_eq_true, Bool.not_eq_true'] at hcond
      simp only [Option.some.injEq, Prod.mk.injEq] at h
      obtain ⟨ha, -⟩ := h
      exact Or.inr ⟨hcond.1, by rw [← ha], hcond.2⟩
    · simp at h

/-- Characterization of a successful bank-account match. -/
theorem matchBank_some (prev : Option Char) (s : List Char) (b : String) (k : Nat)
    (h : matchBank prev s = some (b, k)) :
    isWordOpt prev = false ∧
    9 ≤ (s.takeWhile (fun c => c.isDigit)).length ∧
    (s.takeWhile (fun c => c.isDigit)).length ≤ 18 ∧
    isWordOpt ((s.drop (s.takeWhile (fun c => c.isDigit)).length).head?) = false ∧
    b = String.mk (s.takeWhile (fun c => c.isDigit)) ∧
    k + 1 = (s.takeWhile (fun c => c.isDigit)).length := by
  simp only [matchBank] at h
  split at h
  · next hc =>
    obtain ⟨h1, h2, h3, h4⟩ := hc
    simp only [Option.some.injEq, Prod.mk.injEq] at h
    obtain ⟨hb, hk⟩ := h
    exact ⟨h1, h2, h3, h4, hb.symm, by omega⟩
  · simp at h

/-- A bank match fires on a maximal digit run of admissible length bounded by
word boundaries. -/
theorem matchBank_fires (prev : Option Char) (run suf : List Char)
    (hdig : ∀ c ∈ run, c.isDigit = true)
    (h9 : 9 ≤ run.length) (h18 : run.length ≤ 18)
    (hprev : isWordOpt prev = false)
    (hsuf : isWordOpt suf.head? = false) :
    matchBank prev (run ++ suf) = some (String.mk run, run.length - 1) := by
  have hsufTW : suf.takeWhile (fun c => c.isDigit) = [] := by
    cases suf with
    | nil => rfl
    | cons x xs =>
      have : x.isDigit = false := by
        by_contra hx
        simp only [Bool.not_eq_false] at hx
        have := digit_isWord x hx
        simp [isWordOpt, this] at hsuf
      exact List.takeWhile_cons_of_neg (by rw [this]; simp)
  have hTW : (run ++ suf).takeWhile (fun c => c.isDigit) = run := by
    rw [takeWhile_append_all _ _ _ hdig, hsufTW, List.append_nil]
  simp only [matchBank]
  rw [hTW, if_pos ⟨hprev, h9, h18, by rw [List.drop_left]; exact hsuf⟩]

/-- Completeness of the bank scan: a maximal digit run of length 9–18 bounded
by non-word characters is always found, wherever it sits in the text.  The
hypothesis on `lastOr prev pre` says the character just before the run's
position (or the scan's initial previous character) is not a word character,
so no digit run crosses into `run` from the left and no earlier match can
swallow it. -/
theorem bank_complete :
    ∀ (M : Nat) (pre : List Char), pre.length ≤ M →
    ∀ (run suf : List Char) (prev : Option Char),
      (∀ c ∈ run, c.isDigit = true) → 9 ≤ run.length → run.length ≤ 18 →
      isWordOpt (lastOr prev pre) = false →
      isWordOpt suf.head? = false →
      String.mk run ∈ scanA matchBank prev (pre ++ (run ++ suf)) := by
  intro M
  induction M with
  | zero =>
    intro pre hpre run suf prev hdig h9 h18 hlast hsuf
    have : pre = [] := List.eq_nil_of_length_eq_zero (Nat.le_zero.mp hpre)
    subst this
    have hfire := matchBank_fires prev run suf hdig h9 h18 hlast hsuf
    cases run with
    | nil => simp at h9
    | cons r0 rs =>
      rw [List.cons_append] at hfire
      rw [List.nil_append, List.cons_append, scanA_cons, hfire]
      exact List.mem_cons_self _ _
  | succ M ih =>
    intro pre hpre run suf prev hdig h9 h18 hlast hsuf
    cases pre with
    | nil =>
      exact ih [] (by simp) run suf prev hdig h9 h18 hlast hsuf
    | cons c pc =>
      rw [List.cons_append, scanA_cons]
      cases hm : matchBank prev (c :: (pc ++ (run ++ suf))) with
      | none =>
        have hlast' : isWordOpt (lastOr (some c) pc) = false := by
          rw [← lastOr_cons prev c pc]
          exact hlast
        exact ih pc (by simpa using hpre) run suf (some c) hdig h9 h18 hlast' hsuf
      | some bk =>
        obtain ⟨b, k⟩ := bk
        have hchar := matchBank_some prev _ b k hm
        set s := c :: (pc ++ (run ++ suf)) with hs
        set rw0 := s.takeWhile (fun c => c.isDigit) with hrw
        have hklen : k + 1 = rw0.length := hchar.2.2.2.2.2
        -- The digit run at this position stays inside `pre = c :: pc`.
        have hrwlt : rw0.length < pc.length + 1 := by
          by_contra hge
          push_neg at hge
          have hall : ∀ x ∈ c :: pc, (fun c => c.isDigit) x = true := by
            have halt := all_of_takeWhile_le (fun c => c.isDigit) (c :: pc) (run ++ suf)
            refine halt ?_
            rw [List.cons_append, ← hs, ← hrw]
            simpa using hge
          have hlastmem : (c :: pc).getLast (by simp) ∈ c :: pc :=
            List.getLast_mem _
          have hlastdig := hall _ hlastmem
          have hword := digit_isWord _ hlastdig
          rw [lastOr_ne_nil _ _ (by simp),
            List.getLast?_eq_getLast _ (by simp)] at hlast
          simp only [isWordOpt] at hlast
          rw [hword] at hlast
          cases hlast
        have hkpc : k ≤ pc.length := by omega
        have hdropeq : (pc ++ (run ++ suf)).drop k = pc.drop k ++ (run ++ suf) := by
          rw [List.drop_append_eq_append_drop]
          have hz : k - pc.length = 0 := by omega
          rw [hz, List.drop_zero]
        have hpc' : pc.drop k ≠ [] := by
          intro hx
          have hxlen := congrArg List.length hx
          simp only [List.length_drop, List.length_nil] at hxlen
          omega
        have hgl : (c :: pc).getLast? = pc.getLast? := by
          cases hx : pc with
          | nil =>
            rw [hx, List.drop_nil] at hpc'
            exact absurd rfl hpc'
          | cons y ys => rw [List.getLast?_cons_cons]
        have hlast' : isWordOpt (lastOr ((s.drop k).head?) (pc.drop k)) = false := by
          rw [lastOr_ne_nil _ _ hpc', getLast?_drop_ne pc k hpc']
          rw [lastOr_ne_nil _ _ (by simp : c :: pc ≠ []), hgl] at hlast
          exact hlast
        have hrec := ih (pc.drop k)
          (by simp only [List.length_drop]
              simp only [List.length_cons] at hpre
              omega)
          run suf ((s.drop k).head?) hdig h9 h18 hlast' hsuf
        refine List.mem_cons_of_mem _ ?_
        rw [hdropeq]
        exact hrec

/-- A digit is not regex whitespace. -/
theorem digit_not_space (c : Char) (h : c.isDigit = true) : isPySpace c = false := by
  by_contra hx
  simp only [Bool.not_eq_false, isPySpace, Bool.or_eq_true, decide_eq_true_eq] at hx
  rcases hx with ((((rfl | rfl) | rfl) | rfl) | rfl) | rfl <;> exact absurd h (by decide)

/-- C9: a bare ten-digit phone entry lands in `bankAccounts` too: whenever
extraction put a ten-digit string into `phoneNumbers` (i.e. `RE_PHONE`
matched the digits without a `+91` prefix), the same digit string is also in
`bankAccounts`, because the same maximal digit run bounded by word
boundaries is a 9–18 digit `RE_BANK_AC` match; no de-duplication between the
two categories is performed. -/
theorem c9_phone_overlap_bank (text d : String)
    (hmem : d ∈ (extractArtifacts text).phoneNumbers)
    (hlen : d.data.length = 10)
    (hdig : d.data.all (fun c => c.isDigit) = true) :
    d ∈ (extractArtifacts text).bankAccounts := by
  simp only [extractArtifacts] at hmem
  rw [List.mem_toFinset] at hmem
  obtain ⟨a, hscan, hfn⟩ := List.mem_map.mp hmem
  have hddata : d.data = pyStrip a.data := by
    rw [← hfn]
  obtain ⟨pre, suf, n, heq, hmatch⟩ :=
    scanA_sound matchPhone matchPhone_wf text.data.length text.data (le_refl _)
      none a hscan
  rcases matchPhone_some_shape _ _ _ _ hmatch with ⟨t, hat⟩ | ⟨hprev, hta, hcore⟩
  · -- A prefixed match starts with '+', but pyStrip preserves it,
    -- contradicting that `d` is all digits.
    have hplus : '+' ∈ pyStrip a.data := by
      rw [hat]
      exact mem_pyStrip_head '+' t (by decide)
    rw [← hddata] at hplus
    have := List.all_eq_true.mp hdig '+' hplus
    exact absurd this (by decide)
  · obtain ⟨h10, hdigits, hafter⟩ := phoneCore_spec suf hcore
    have hstrip : pyStrip a.data = a.data := by
      refine pyStrip_of_all_not_space _ ?_
      intro c hc
      rw [hta] at hc
      exact digit_not_space c (List.all_eq_true.mp hdigits c hc)
    have hda : d.data = suf.take 10 := by rw [hddata, hstrip, hta]
    have hrdig : ∀ c ∈ suf.take 10, c.isDigit = true := by
      intro c hc
      exact List.all_eq_true.mp hdigits c hc
    have hrlen : (suf.take 10).length = 10 := by
      rw [List.length_take]
      omega
    have hbank := bank_complete pre.length pre (le_refl _) (suf.take 10)
      (suf.drop 10) none hrdig (by omega) (by omega) hprev hafter
    rw [List.take_append_drop] at hbank
    rw [← heq] at hbank
    have hd : d = String.mk (suf.take 10) := by
      rw [← hda]
    simp only [extractArtifacts]
    rw [List.mem_toFinset, List.mem_filter]
    constructor
    · rw [hd]
      exact hbank
    · have hl : d.length = 10 := hlen
      rw [hl]
      decide

/-- Concrete instantiation of `c9_phone_overlap_bank` on the message
"call 9876543210". -/
theorem c9_phone_overlap_bank_witness :
    ("9876543210" ∈ (extractArtifacts "call 9876543210").phoneNumbers ∧
     "9876543210".data.length = 10 ∧
     "9876543210".data.all (fun c => c.isDigit) = true) ∧
    "9876543210" ∈ (extractArtifacts "call 9876543210").bankAccounts :=
  ⟨⟨by decide, by decide, by decide⟩,
    c9_phone_overlap_bank "call 9876543210" "9876543210"
      (by decide) (by decide) (by decide)⟩

/-- Concrete instantiation of `c10_reply_nonempty`: a whitespace-only
generation response on a scam message strips to an empty pipeline reply, and
the endpoint substitutes `OKAY_REPLY`. -/
theorem c10_reply_nonempty_witness :
    ((handleMessage 3 "s" (freshSession 0) ⟨"a", "otp cvv pin", []⟩
        (some " \n ") CbResult.exn 0).2.1).reply = OKAY_REPLY ∧
    ((handleMessage 3 "s" (freshSession 0) ⟨"a", "otp cvv pin", []⟩
        (some " \n ") CbResult.exn 0).2.1).reply ≠ "" := by
  constructor
  · have h := (c10_reply_nonempty.1 3 "s" (freshSession 0) ⟨"a", "otp cvv pin", []⟩
      (some " \n ") CbResult.exn 0).1
    rw [h, if_pos (by decide)]
  · exact (c10_reply_nonempty.1 3 "s" (freshSession 0) ⟨"a", "otp cvv pin", []⟩
      (some " \n ") CbResult.exn 0).2
